import Mathlib

/-
Verification development for the rendering-gateway service (src/index.js).

Strings are modelled as lists of characters (`Str`).  JavaScript strings are
UTF-16; none of the verified properties depend on surrogate-pair details, so a
character-list model is adequate.  Platform builtins (the network `fetch`, the
`URL` constructor, `JSON.parse`, `Buffer`'s base64 encoding) are not repository
code; they are modelled as oracle parameters whose outputs the repository's
functions consume.  Machine timestamps (`Date.now()`) are modelled as `Int`
milliseconds passed in explicitly; the successive `Date.now()` readings inside
one cache call or one request handler are modelled as a single instant `now`,
and each request is modelled as running to completion on its own (properties
here are per-request; concurrent interleavings of the shared cache are out of
scope).  Case-insensitive regex matching is modelled with ASCII case folding
(`Char.toLower`), which covers all the literal patterns appearing in the
source.
-/

namespace WebApi

/-- Strings as character lists. -/
abbrev Str := List Char

/-- Embed a Lean string literal as a `Str`. -/
def str (s : String) : Str := s.data

/-- JavaScript whitespace (the set recognised by `String.prototype.trim` and by
the regex class `\s`): ASCII whitespace plus the Unicode space separators,
NBSP, BOM and the line/paragraph separators. -/
def isJsWhitespace (c : Char) : Bool :=
  c == ' ' || c == Char.ofNat 9 || c == Char.ofNat 10 || c == Char.ofNat 13 ||
  c == Char.ofNat 11 || c == Char.ofNat 12 ||
  c == Char.ofNat 0xA0 || c == Char.ofNat 0xFEFF ||
  c == Char.ofNat 0x1680 ||
  (decide (0x2000 ≤ c.toNat) && decide (c.toNat ≤ 0x200A)) ||
  c == Char.ofNat 0x2028 || c == Char.ofNat 0x2029 ||
  c == Char.ofNat 0x202F || c == Char.ofNat 0x205F || c == Char.ofNat 0x3000

/-- JS `String.prototype.trimStart`. -/
def jsTrimStart (s : Str) : Str := s.dropWhile isJsWhitespace

/-- JS `String.prototype.trimEnd`. -/
def jsTrimEnd (s : Str) : Str := (s.reverse.dropWhile isJsWhitespace).reverse

/-- JS `String.prototype.trim`. -/
def jsTrim (s : Str) : Str := jsTrimEnd (jsTrimStart s)

/-- JS `String.prototype.toLowerCase`, restricted to ASCII folding. -/
def jsToLower (s : Str) : Str := s.map Char.toLower

/-- Case-insensitive prefix test (regex `/^pat/i` at a position). -/
def ciPrefixOf (pat s : Str) : Bool := (jsToLower pat).isPrefixOf (jsToLower s)

/-- Word character, the regex class `\w` = `[A-Za-z0-9_]`. -/
def isWordChar (c : Char) : Bool :=
  (decide ('a' ≤ c) && decide (c ≤ 'z')) ||
  (decide ('A' ≤ c) && decide (c ≤ 'Z')) ||
  (decide ('0' ≤ c) && decide (c ≤ '9')) || c == '_'

/-- Does `pat` occur as a contiguous substring of `s`? -/
def occursb (pat : Str) : Str → Bool
  | [] => pat.isPrefixOf []
  | c :: rest => pat.isPrefixOf (c :: rest) || occursb pat rest

/-- Case-insensitive substring test. -/
def ciContains (pat s : Str) : Bool :=
  occursb (jsToLower pat) (jsToLower s)

/-- Split `s` at the leftmost occurrence of `pat`: `some (pre, suf)` with
`s = pre ++ pat ++ suf` and `pre` shortest possible; `none` when `pat` does not
occur.  An empty `pat` matches at index 0, as in JS `String.prototype.replace`. -/
def splitFirst (pat : Str) : Str → Option (Str × Str)
  | [] => if pat.isEmpty then some ([], []) else none
  | c :: rest =>
    if pat.isPrefixOf (c :: rest) then some ([], (c :: rest).drop pat.length)
    else (splitFirst pat rest).map (fun p => (c :: p.1, p.2))

/-- The character `$`. -/
def dollarChar : Char := Char.ofNat 36

/-- The character `'`. -/
def squoteChar : Char := Char.ofNat 39

/-- The character `` ` ``. -/
def btickChar : Char := Char.ofNat 96

/-- GetSubstitution for JS `String.prototype.replace` with a string pattern:
`$$`, `$&`, the backtick form and the quote form are interpreted; any other
`$` is literal.  `matched` is the pattern, `before`/`after` the surrounding
portions of the subject string. -/
def processSub (matched before after : Str) : Str → Str
  | [] => []
  | c :: rest =>
    if c == dollarChar then
      match rest with
      | [] => [c]
      | d :: rest2 =>
        if d == dollarChar then dollarChar :: processSub matched before after rest2
        else if d == '&' then matched ++ processSub matched before after rest2
        else if d == btickChar then before ++ processSub matched before after rest2
        else if d == squoteChar then after ++ processSub matched before after rest2
        else c :: processSub matched before after (d :: rest2)
    else c :: processSub matched before after rest

/-- `rep` contains no `$`, so `processSub` leaves it unchanged. -/
def dollarFree (s : Str) : Bool := s.all (fun c => !(c == dollarChar))

/-- JS `s.replace(pat, rep)` with string `pat`: replace the leftmost occurrence
only, applying `$`-substitution to `rep`. -/
def jsReplaceFirst (pat rep s : Str) : Str :=
  match splitFirst pat s with
  | none => s
  | some p => p.1 ++ processSub pat p.1 p.2 rep ++ p.2

/-
Configuration (environment-sourced constants of src/index.js).  Numeric values
are `Int` so that the code's non-positivity guards (`CACHE_TTL_MS <= 0` etc.)
keep their meaning for arbitrary configured values.  `BROWSERLESS_TOKEN` is
`Option Str`: `none` models an unset variable, and the code's falsiness check
`!BROWSERLESS_TOKEN` also treats an empty-string token as missing.
-/

/-- Environment configuration of the gateway. -/
structure Config where
  browserlessToken : Option Str
  captureDelayMs : Int
  screenshotRetries : Int
  screenshotBackoffMs : Int
  cacheTtlMs : Int
  cacheMaxEntries : Int

/-- JS truthiness of `BROWSERLESS_TOKEN`. -/
def hasToken (cfg : Config) : Bool :=
  match cfg.browserlessToken with
  | none => false
  | some s => !s.isEmpty

/-- A successful screenshot payload: base64 text of the captured bytes plus its
content type (`fetchScreenshotFromBrowserless`'s return value). -/
structure ShotResult where
  image : Str
  contentType : Str
deriving DecidableEq, Inhabited

/-- The cached/returned payload assembled by the `/fetch` handler. -/
structure FetchResult where
  html : Str
  htmlContentType : Str
  screenshotResult : Option ShotResult
  screenshotWarning : Option Str
deriving DecidableEq, Inhabited

/-- One entry of `fetchCache`. -/
structure CacheEntry where
  value : FetchResult
  expiresAt : Int
deriving DecidableEq, Inhabited

/-- The `fetchCache` JS `Map`, modelled as its entry list in insertion order
(oldest first).  A JS `Map` never holds two entries with the same key;
`mapSet` updates the first matching key in place (keeping its position, as
`Map.prototype.set` does) and `mapDelete` removes the first matching entry. -/
abbrev Cache := List (Str × CacheEntry)

/-- JS `Map.prototype.get`. -/
def mapGet (k : Str) (c : Cache) : Option CacheEntry :=
  (c.find? (fun p => p.1 = k)).map (fun p => p.2)

/-- JS `Map.prototype.set`: update in place, else append. -/
def mapSet (k : Str) (v : CacheEntry) : Cache → Cache
  | [] => [(k, v)]
  | p :: rest => if p.1 = k then (k, v) :: rest else p :: mapSet k v rest

/-- JS `Map.prototype.delete` (of a key that occurs at most once). -/
def mapDelete (k : Str) : Cache → Cache
  | [] => []
  | p :: rest => if p.1 = k then rest else p :: mapDelete k rest

/-- `purgeExpiredCacheEntries` (src/index.js:198): delete every entry whose
`expiresAt <= now`. -/
def purgeExpiredCacheEntries (now : Int) (c : Cache) : Cache :=
  c.filter (fun p => decide (now < p.2.expiresAt))

/-- `getCacheKey` (src/index.js:207). -/
def getCacheKey (targetUrl : Str) : Str := jsTrim targetUrl

/-- `getCachedFetchResult` (src/index.js:211): purge the whole store, then look
the key up; an individually expired entry is deleted and reported absent.
Returns the hit (value plus remaining TTL) and the mutated store. -/
def getCachedFetchResult (now : Int) (targetUrl : Str) (c : Cache) :
    Option (FetchResult × Int) × Cache :=
  let c1 := purgeExpiredCacheEntries now c
  let key := getCacheKey targetUrl
  match mapGet key c1 with
  | none => (none, c1)
  | some entry =>
    let msLeft := entry.expiresAt - now
    if msLeft ≤ 0 then (none, mapDelete key c1)
    else (some (entry.value, msLeft), c1)

/-- `setCachedFetchResult` (src/index.js:229): no-op when the cache is disabled;
otherwise purge, evict the oldest entry if still at or above capacity, then
insert with `expiresAt = now + TTL`. -/
def setCachedFetchResult (cfg : Config) (now : Int) (targetUrl : Str)
    (value : FetchResult) (c : Cache) : Cache :=
  if cfg.cacheTtlMs ≤ 0 ∨ cfg.cacheMaxEntries ≤ 0 then c
  else
    let c1 := purgeExpiredCacheEntries now c
    let c2 :=
      if cfg.cacheMaxEntries ≤ (c1.length : Int) then
        match c1.head? with
        | none => c1
        | some oldest => mapDelete oldest.1 c1
      else c1
    mapSet (getCacheKey targetUrl) ⟨value, now + cfg.cacheTtlMs⟩ c2

/-- A cache operation with its wall-clock instant, for stating store
invariants over arbitrary operation sequences. -/
inductive CacheOp
  | get (now : Int) (targetUrl : Str)
  | put (now : Int) (targetUrl : Str) (value : FetchResult)

/-- Apply one cache operation to the store. -/
def applyCacheOp (cfg : Config) (c : Cache) : CacheOp → Cache
  | .get now u => (getCachedFetchResult now u c).2
  | .put now u v => setCachedFetchResult cfg now u v c

/-- Run a sequence of cache operations from the empty store. -/
def runCacheOps (cfg : Config) (ops : List CacheOp) : Cache :=
  ops.foldl (applyCacheOp cfg) []

/-
Upstream HTTP responses.  The network itself is a platform effect; each client
consumes an oracle giving the upstream response per attempt.  For the markup
client the two possible requests differ only in their `waitForTimeout` field,
so its oracle is keyed by that value; the screenshot client retries the same
request, so its oracle is keyed by the attempt number.  `bodyText` is
`response.text()`, `imageBase64` the base64 text of `response.arrayBuffer()`
(the `Buffer` encoding is a platform builtin), `contentType` the
`content-type` header (`none` when absent).
-/

/-- An upstream HTTP response as observed by the clients. -/
structure UpResp where
  ok : Bool
  status : Nat
  statusText : Str
  bodyText : Str
  imageBase64 : Str
  contentType : Option Str
deriving DecidableEq

/-- The markup client's result `{ body, contentType }`. -/
structure MarkupOut where
  body : Str
  contentType : Option Str
deriving DecidableEq

/-- Decimal rendering of a status code inside an error message. -/
def natStr (n : Nat) : Str := (toString n).data

/-- Message of the error thrown on a non-success markup response
(src/index.js:342). -/
def markupFailMsg (status : Nat) (statusText details : Str) : Str :=
  str "Browserless request failed (" ++ natStr status ++ str " " ++ statusText ++
    str "): " ++ details

/-- Message of the error thrown on a non-retried screenshot failure
(src/index.js:416). -/
def screenshotFailMsg (status : Nat) (statusText details : Str) : Str :=
  str "Browserless screenshot failed (" ++ natStr status ++ str " " ++ statusText ++
    str "): " ++ details

/-- Message of the missing-token error (src/index.js:317, 369). -/
def missingTokenMsg : Str := str "Missing BROWSERLESS_TOKEN environment variable."

/-- Message of the error thrown when the retry loop exits (src/index.js:421). -/
def exhaustedMsg : Str := str "Browserless screenshot failed after retries."

/-- JS `x || dflt` on a nullable string. -/
def jsOrDefault (o : Option Str) (d : Str) : Str :=
  match o with
  | none => d
  | some s => if s.isEmpty then d else s

/-- The markup client's inner `runRequest` (src/index.js:333): one POST with
the given `waitForTimeout`; a non-success response throws an error carrying
status and body text. -/
def runRequest (resps : Int → UpResp) (waitForTimeout : Int) : Except Str MarkupOut :=
  let r := resps waitForTimeout
  if r.ok then .ok ⟨r.bodyText, r.contentType⟩
  else .error (markupFailMsg r.status r.statusText r.bodyText)

/-- `fetchHtmlFromBrowserless` (src/index.js:315): one request with the
configured content-settle delay; when its body is empty or all-whitespace,
exactly one retry with the delay increased by 3000 ms, whose result is
returned as is. -/
def fetchHtmlFromBrowserless (cfg : Config) (resps : Int → UpResp) : Except Str MarkupOut :=
  if !hasToken cfg then .error missingTokenMsg
  else
    match runRequest resps cfg.captureDelayMs with
    | .error e => .error e
    | .ok result =>
      if (jsTrim result.body).isEmpty then runRequest resps (cfg.captureDelayMs + 3000)
      else .ok result

/-- The retry loop of `fetchScreenshotFromBrowserless` (src/index.js:391),
with `fuel` the number of loop iterations still permitted by the loop bound
`attempt <= SCREENSHOT_RETRIES` (so initially `SCREENSHOT_RETRIES + 1`).
Returns the outcome together with the list of backoff waits performed, in
order. -/
def screenshotGo (cfg : Config) (resps : Nat → UpResp) :
    Nat → Nat → Except Str ShotResult × List Int
  | 0, _ => (.error exhaustedMsg, [])
  | fuel + 1, attempt =>
    let r := resps attempt
    if r.ok then (.ok ⟨r.imageBase64, jsOrDefault r.contentType (str "image/png")⟩, [])
    else if r.status = 429 ∧ (attempt : Int) < cfg.screenshotRetries then
      let next := screenshotGo cfg resps fuel (attempt + 1)
      (next.1, cfg.screenshotBackoffMs * ((attempt : Int) + 1) :: next.2)
    else (.error (screenshotFailMsg r.status r.statusText r.bodyText), [])

/-- `fetchScreenshotFromBrowserless` (src/index.js:367). -/
def fetchScreenshotFromBrowserless (cfg : Config) (resps : Nat → UpResp) :
    Except Str ShotResult × List Int :=
  if !hasToken cfg then (.error missingTokenMsg, [])
  else screenshotGo cfg resps (cfg.screenshotRetries + 1).toNat 0

/-- Leading-bytes sniff shared by `pickResponseContentType` and
`isHtmlContentType`: does the body, after leading whitespace and lowercased,
start with an HTML document marker? -/
def looksHtml (body : Str) : Bool :=
  let t := jsToLower (jsTrimStart body)
  (str "<!doctype html").isPrefixOf t || (str "<html").isPrefixOf t

/-- `pickResponseContentType` (src/index.js:424). -/
def pickResponseContentType (contentType : Option Str) (body : Str) : Str :=
  match contentType with
  | some s =>
    if !s.isEmpty && !(jsTrim s).isEmpty then s
    else if looksHtml body then str "text/html; charset=utf-8"
    else str "text/plain; charset=utf-8"
  | none =>
    if looksHtml body then str "text/html; charset=utf-8"
    else str "text/plain; charset=utf-8"

/-- `isHtmlContentType` (src/index.js:433). -/
def isHtmlContentType (contentType : Option Str) (body : Str) : Bool :=
  match contentType with
  | some s =>
    if !s.isEmpty && (ciContains (str "text/html") s ||
        ciContains (str "application/xhtml+xml") s) then true
    else looksHtml body
  | none => looksHtml body

/-- Split off everything before the first occurrence of `q`; `none` when `q`
does not occur. -/
def takeUntilChar (q : Char) : Str → Option (Str × Str)
  | [] => none
  | c :: rest =>
    if c == q then some ([], rest)
    else (takeUntilChar q rest).map (fun p => (c :: p.1, p.2))

/-- One candidate position of the regex `/<link\b[^>]*>/gi`: the five
characters `<link` (case-insensitively), a word boundary, then everything up
to the next `>`.  Returns the matched tag text (original casing) and the
remainder of the input after it. -/
def tryLinkAt (s : Str) : Option (Str × Str) :=
  if ciPrefixOf (str "<link") s then
    match s.drop 5 with
    | [] => none
    | c :: rest =>
      if isWordChar c then none
      else
        match takeUntilChar '>' (c :: rest) with
        | none => none
        | some p => some (s.take 5 ++ p.1 ++ ['>'], p.2)
  else none

/-- `takeUntilChar` splits its input around the first `q`. -/
theorem takeUntilChar_length {q : Char} :
    ∀ {l a b : Str}, takeUntilChar q l = some (a, b) →
      l.length = a.length + 1 + b.length := by
  intro l
  induction l with
  | nil => intro a b h; simp [takeUntilChar] at h
  | cons c rest ih =>
    intro a b h
    by_cases hc : (c == q) = true
    · simp [takeUntilChar, hc] at h
      obtain ⟨h1, h2⟩ := h
      subst h1; subst h2; simp; omega
    · rcases ht : takeUntilChar q rest with _ | ⟨p1, p2⟩
      · simp [takeUntilChar, hc, ht] at h
      · simp [takeUntilChar, hc, ht] at h
        obtain ⟨ha, hb⟩ := h
        subst ha; subst hb
        have hr := ih ht
        simp [hr]; omega

/-- A case-insensitive prefix is no longer than the string it prefixes. -/
theorem ciPrefixOf_length_le {pat s : Str} (h : ciPrefixOf pat s = true) :
    pat.length ≤ s.length := by
  have := List.isPrefixOf_iff_prefix.mp h
  have := this.length_le
  simpa [jsToLower] using this

/-- A successful `tryLinkAt` consumes at least one character. -/
theorem tryLinkAt_shrinks {s : Str} {p : Str × Str} (h : tryLinkAt s = some p) :
    p.2.length < s.length := by
  unfold tryLinkAt at h
  by_cases hp : ciPrefixOf (str "<link") s = true
  · simp [hp] at h
    rcases hd : s.drop 5 with _ | ⟨c, rest⟩
    · simp [hd] at h
    · simp [hd] at h
      by_cases hw : isWordChar c = true
      · simp [hw] at h
      · simp [hw] at h
        rcases ht : takeUntilChar '>' (c :: rest) with _ | ⟨a, b⟩
        · simp [ht] at h
        · simp [ht] at h
          have hlen := takeUntilChar_length ht
          have h5 : 5 ≤ s.length := ciPrefixOf_length_le hp
          have hds : (s.drop 5).length = s.length - 5 := by simp
          rw [hd] at hds
          subst h
          simp at hlen hds ⊢
          omega
  · simp [hp] at h

/-- The global scan of the regex `/<link\b[^>]*>/gi`, with explicit fuel:
collect candidate tags left to right, resuming after each match, advancing one
character past a failed candidate position.  Every step consumes at least one
character of the input (`tryLinkAt_shrinks`), so fuel `s.length` is enough for
the whole scan; the fuel only makes the recursion structural. -/
def scanLinkTagsF : Nat → Str → List Str
  | 0, _ => []
  | fuel + 1, s =>
    match tryLinkAt s with
    | some p => p.1 :: scanLinkTagsF fuel p.2
    | none =>
      match s with
      | [] => []
      | _ :: rest => scanLinkTagsF fuel rest

/-- The global scan of the regex `/<link\b[^>]*>/gi` (src/index.js:443). -/
def scanLinkTags (s : Str) : List Str := scanLinkTagsF s.length s

/-- Word-boundary test against the previous character (`none` at the start of
the string). -/
def boundaryOk : Option Char → Bool
  | none => true
  | some p => !isWordChar p

/-- Everything strictly before the first quote character (of either kind);
`none` when no quote occurs. -/
def takeUntilQuote : Str → Option Str
  | [] => none
  | c :: rest =>
    if c == '"' || c == squoteChar then some []
    else (takeUntilQuote rest).map (fun t => c :: t)

/-- After the opening quote of `rel=`: the closing quote must exist and the
quote-free segment before it must contain `stylesheet` case-insensitively
(the regex `["'][^"']*stylesheet[^"']*["']`). -/
def relQuoteSeg (body : Str) : Bool :=
  match takeUntilQuote body with
  | none => false
  | some seg => ciContains (str "stylesheet") seg

/-- Match of `rel\s*=\s*["'][^"']*stylesheet[^"']*["']` anchored at the start
of `s` (the leading `\b` is checked by the caller). -/
def relMatchAt (s : Str) : Bool :=
  if ciPrefixOf (str "rel") s then
    match (s.drop 3).dropWhile isJsWhitespace with
    | '=' :: v =>
      match v.dropWhile isJsWhitespace with
      | q :: body => (q == '"' || q == squoteChar) && relQuoteSeg body
      | [] => false
    | _ => false
  else false

/-- Search for the `rel` pattern at every position, tracking the previous
character for the word boundary. -/
def relSearch (prev : Option Char) : Str → Bool
  | [] => false
  | c :: rest => (boundaryOk prev && relMatchAt (c :: rest)) || relSearch (some c) rest

/-- The test `/\brel\s*=\s*["'][^"']*stylesheet[^"']*["']/i.test(tag)`
(src/index.js:447). -/
def hasStylesheetRel (tag : Str) : Bool := relSearch none tag

/-- Match of `href\s*=\s*q([^q]+)q` anchored at the start of `s`, for quote
character `q`; returns the captured (non-empty) href. -/
def hrefMatchAt (q : Char) (s : Str) : Option Str :=
  if ciPrefixOf (str "href") s then
    match (s.drop 4).dropWhile isJsWhitespace with
    | '=' :: v =>
      match v.dropWhile isJsWhitespace with
      | c :: body =>
        if c == q then
          match takeUntilChar q body with
          | none => none
          | some p => if p.1.isEmpty then none else some p.1
        else none
      | [] => none
    | _ => none
  else none

/-- First match of the href pattern over all positions. -/
def hrefSearch (q : Char) (prev : Option Char) : Str → Option Str
  | [] => none
  | c :: rest =>
    match (if boundaryOk prev then hrefMatchAt q (c :: rest) else none) with
    | some content => some content
    | none => hrefSearch q (some c) rest

/-- `tag.match(/\bhref\s*=\s*"([^"]+)"/i) || tag.match(/\bhref\s*=\s*'([^']+)'/i)`
(src/index.js:448). -/
def extractHref (tag : Str) : Option Str :=
  match hrefSearch '"' none tag with
  | some h => some h
  | none => hrefSearch squoteChar none tag

/-- One extracted stylesheet link: the full matched tag text and its href. -/
structure LinkRef where
  tag : Str
  href : Str
deriving DecidableEq

/-- `extractStylesheetLinks` (src/index.js:441). -/
def extractStylesheetLinks (html : Str) : List LinkRef :=
  (scanLinkTags html).filterMap (fun tag =>
    if hasStylesheetRel tag then (extractHref tag).map (fun h => ⟨tag, h⟩)
    else none)

/-- Outcome of resolving and fetching one stylesheet URL.  `throwErr` covers a
throwing `new URL(href, pageUrl)` as well as a rejected `fetch`/`text()`;
`respFail` a response with non-success status; `respOk` carries the resolved
absolute URL string and the fetched text. -/
inductive CssFetchOutcome
  | throwErr (msg : Str)
  | respFail (status : Nat)
  | respOk (cssUrl : Str) (cssText : Str)

/-- The stylesheet-fetch oracle, keyed by (href, pageUrl). -/
abbrev CssOracle := Str → Str → CssFetchOutcome

/-- Did this link's fetch fail (either way)? -/
def cssFailed : CssFetchOutcome → Bool
  | .throwErr _ => true
  | .respFail _ => true
  | .respOk _ _ => false

/-- The replacement `<style>` element (src/index.js:474). -/
def styleBlock (cssUrl cssText : Str) : Str :=
  str "<style data-inlined-from=\"" ++ cssUrl ++ str "\">\n" ++ cssText ++ str "\n</style>"

/-- One iteration of the loop in `inlineExternalCss`: a failed fetch leaves the
output untouched; a successful one replaces the first occurrence of the tag
text. -/
def inlineStep (css : CssOracle) (pageUrl : Str) (out : Str) (link : LinkRef) : Str :=
  match css link.href pageUrl with
  | .throwErr _ => out
  | .respFail _ => out
  | .respOk cssUrl cssText => jsReplaceFirst link.tag (styleBlock cssUrl cssText) out

/-- `inlineExternalCss` (src/index.js:456). -/
def inlineExternalCss (css : CssOracle) (pageUrl : Str) (html : Str) : Str :=
  (extractStylesheetLinks html).foldl (inlineStep css pageUrl) html

/-- JSON values, as produced by the platform's `JSON.parse` (modelled as an
oracle).  Objects are field lists; `JSON.parse` output never carries duplicate
keys (later duplicates overwrite earlier ones before the value is returned).
Numbers are irrelevant to every verified property and carried as `Int`. -/
inductive Json
  | null
  | bool (b : Bool)
  | num (n : Int)
  | str (s : Str)
  | arr (elems : List Json)
  | obj (fields : List (Str × Json))

/-- JS `typeof x === "object" && x` for a JSON value: arrays and objects pass,
`null` (falsy) and primitives do not. -/
def jsIsObject : Json → Bool
  | .arr _ => true
  | .obj _ => true
  | _ => false

/-- Property access `payload[k]` on a parsed JSON value. -/
def jsonField (j : Json) (k : Str) : Option Json :=
  match j with
  | .obj fields => (fields.find? (fun p => p.1 = k)).map (fun p => p.2)
  | _ => none

/-- The test `/^https?:\/\//i.test(trimmed)` (src/index.js:292). -/
def startsHttpScheme (s : Str) : Bool :=
  ciPrefixOf (str "http://") s || ciPrefixOf (str "https://") s

/-- `parseFetchBody` (src/index.js:288): empty bodies are rejected; a trimmed
body starting with an http(s) scheme is accepted directly as `{ url }`; any
other body goes through `JSON.parse` (twice when the first parse yields a
string) and must come out as an object. -/
def parseFetchBody (jparse : Str → Option Json) (raw : Str) : Option Json :=
  if (jsTrim raw).isEmpty then none
  else
    let trimmed := jsTrim raw
    if startsHttpScheme trimmed then some (.obj [(str "url", .str trimmed)])
    else
      match jparse trimmed with
      | none => none
      | some p =>
        match (match p with | .str s => jparse s | q => some q) with
        | none => none
        | some q => if jsIsObject q then some q else none

/-- Resolution of the `format` request parameter (src/index.js:520):
`(typeof payload.format === "string" && payload.format.toLowerCase()) ||
requestUrl.searchParams.get("format") || "json"`. -/
def resolveFormat (formatField : Option Json) (queryFormat : Option Str) : Str :=
  let fromPayload : Option Str :=
    match formatField with
    | some (.str s) => if (jsToLower s).isEmpty then none else some (jsToLower s)
    | _ => none
  match fromPayload with
  | some f => f
  | none =>
    match queryFormat with
    | some q => if q.isEmpty then str "json" else q
    | none => str "json"

/-- The observable outcome of a POST `/fetch` request: a 400 on a bad body, the
dedicated 502 empty-body response (src/index.js:545), a 500 carrying a thrown
error's message, or a 200 in one of the two response shapes. -/
inductive Outcome
  | badRequest
  | emptyBody
  | serverError (msg : Str)
  | okJson (url : Str) (html : Str) (image : Option Str) (htmlContentType : Str)
      (imageContentType : Option Str) (warning : Option Str)
  | okRaw (html : Str) (contentType : Str)
deriving DecidableEq

/-- Response shaping (src/index.js:575): the JSON shape carries the optional
image and warning; any other format returns the raw markup with its resolved
content type. -/
def shapeResponse (targetUrl format : Str) (fr : FetchResult) : Outcome :=
  if format = str "json" then
    .okJson targetUrl fr.html (fr.screenshotResult.map (fun s => s.image))
      fr.htmlContentType (fr.screenshotResult.map (fun s => s.contentType))
      fr.screenshotWarning
  else .okRaw fr.html fr.htmlContentType

/-- `screenshotErr.message || "Screenshot unavailable."` (src/index.js:555). -/
def screenshotWarningOf (msg : Str) : Str :=
  if msg.isEmpty then str "Screenshot unavailable." else msg

/-- The `/fetch` orchestration (src/index.js:519): trim the target, consult the
cache; on a hit replay the stored result; on a miss fetch markup (failing the
request on an empty body), then best-effort screenshot, then inline CSS when
the markup is HTML, cache, and shape the response.  The third component
records whether the screenshot client was invoked. -/
def handleFetch (cfg : Config) (now : Int) (payloadUrl format : Str)
    (markupResps : Int → UpResp) (shotResps : Nat → UpResp) (css : CssOracle)
    (c : Cache) : Outcome × Cache × Bool :=
  let targetUrl := jsTrim payloadUrl
  let looked := getCachedFetchResult now targetUrl c
  match looked.1 with
  | some hit => (shapeResponse targetUrl format hit.1, looked.2, false)
  | none =>
    match fetchHtmlFromBrowserless cfg markupResps with
    | .error e => (.serverError e, looked.2, false)
    | .ok htmlResult =>
      if (jsTrim htmlResult.body).isEmpty then (.emptyBody, looked.2, false)
      else
        let shot := (fetchScreenshotFromBrowserless cfg shotResps).1
        let screenshotResult := match shot with | .ok s => some s | .error _ => none
        let screenshotWarning :=
          match shot with | .ok _ => none | .error m => some (screenshotWarningOf m)
        let body1 :=
          if isHtmlContentType htmlResult.contentType htmlResult.body then
            inlineExternalCss css targetUrl htmlResult.body
          else htmlResult.body
        let fr : FetchResult :=
          ⟨body1, pickResponseContentType htmlResult.contentType body1,
            screenshotResult, screenshotWarning⟩
        (shapeResponse targetUrl format fr,
          setCachedFetchResult cfg now targetUrl fr looked.2, true)

/-- The full POST `/fetch` handler from the raw body on (src/index.js:509):
parse, validate the `url` field, resolve the format, then orchestrate. -/
def handleFetchRequest (cfg : Config) (now : Int) (rawBody : Str)
    (queryFormat : Option Str) (jparse : Str → Option Json)
    (markupResps : Int → UpResp) (shotResps : Nat → UpResp) (css : CssOracle)
    (c : Cache) : Outcome × Cache × Bool :=
  match parseFetchBody jparse rawBody with
  | none => (.badRequest, c, false)
  | some payload =>
    match jsonField payload (str "url") with
    | some (.str u) =>
      if (jsTrim u).isEmpty then (.badRequest, c, false)
      else
        handleFetch cfg now u
          (resolveFormat (jsonField payload (str "format")) queryFormat)
          markupResps shotResps css c
    | _ => (.badRequest, c, false)

/-
Auxiliary lemmas about the string primitives.
-/

/-- The head surviving `dropWhile` fails the predicate. -/
theorem dropWhile_head_false {p : Char → Bool} :
    ∀ {l : Str} {c : Char} {t : Str}, List.dropWhile p l = c :: t → p c = false := by
  intro l
  induction l with
  | nil => intro c t h; simp at h
  | cons x rest ih =>
    intro c t h
    by_cases hx : p x = true
    · rw [List.dropWhile_cons_of_pos hx] at h; exact ih h
    · rw [List.dropWhile_cons_of_neg hx] at h
      obtain ⟨h1, _⟩ := List.cons.inj h
      subst h1
      simpa using hx

/-- Trimming the end only removes a suffix. -/
theorem jsTrimEnd_prefix (l : Str) : jsTrimEnd l <+: l := by
  rw [← List.reverse_suffix]
  simpa [jsTrimEnd] using List.dropWhile_suffix (l := l.reverse) isJsWhitespace

/-- `jsTrimEnd` is idempotent. -/
theorem jsTrimEnd_idem (l : Str) : jsTrimEnd (jsTrimEnd l) = jsTrimEnd l := by
  simp [jsTrimEnd, List.dropWhile_idempotent]

/-- Trimming the start after trimming both ends changes nothing. -/
theorem jsTrimStart_jsTrimEnd_jsTrimStart (s : Str) :
    jsTrimStart (jsTrimEnd (jsTrimStart s)) = jsTrimEnd (jsTrimStart s) := by
  rcases h : jsTrimEnd (jsTrimStart s) with _ | ⟨c, t⟩
  · simp [jsTrimStart]
  · have hpre := jsTrimEnd_prefix (jsTrimStart s)
    rw [h] at hpre
    obtain ⟨u, hu⟩ := hpre
    have hx : (s.dropWhile isJsWhitespace) = c :: (t ++ u) := by
      simpa [jsTrimStart] using hu.symm
    have hc : isJsWhitespace c = false := dropWhile_head_false hx
    simp [jsTrimStart, List.dropWhile_cons, hc]

/-- JS `trim` is idempotent. -/
theorem jsTrim_idem (s : Str) : jsTrim (jsTrim s) = jsTrim s := by
  show jsTrimEnd (jsTrimStart (jsTrimEnd (jsTrimStart s))) = jsTrim s
  rw [jsTrimStart_jsTrimEnd_jsTrimStart, jsTrimEnd_idem]
  rfl

/-- JS `trim` yields the empty string exactly on all-whitespace input. -/
theorem jsTrim_eq_nil_iff {l : Str} :
    jsTrim l = [] ↔ ∀ c ∈ l, isJsWhitespace c = true := by
  have step1 : jsTrim l = [] ↔ ∀ c ∈ jsTrimStart l, isJsWhitespace c = true := by
    constructor
    · intro h c hc
      have h2 : List.dropWhile isJsWhitespace (jsTrimStart l).reverse = [] := by
        have h3 := congrArg List.reverse h
        simpa [jsTrim, jsTrimEnd] using h3
      exact List.dropWhile_eq_nil_iff.mp h2 c (List.mem_reverse.mpr hc)
    · intro h
      have h2 : List.dropWhile isJsWhitespace (jsTrimStart l).reverse = [] :=
        List.dropWhile_eq_nil_iff.mpr (fun c hc => h c (List.mem_reverse.mp hc))
      simp [jsTrim, jsTrimEnd, h2]
  rw [step1]
  constructor
  · intro h c hc
    rw [← List.takeWhile_append_dropWhile (p := isJsWhitespace) (l := l)] at hc
    rcases List.mem_append.mp hc with h1 | h1
    · exact List.mem_takeWhile_imp h1
    · exact h c h1
  · intro h c hc
    exact h c ((List.dropWhile_suffix (l := l) isJsWhitespace).subset hc)

/-
Auxiliary lemmas about the `Map` model and the cache store.
-/

/-- Looking up the key just set finds the new entry. -/
theorem mapGet_mapSet_self (k : Str) (v : CacheEntry) :
    ∀ c, mapGet k (mapSet k v c) = some v := by
  intro c
  induction c with
  | nil => simp [mapSet, mapGet, List.find?]
  | cons p rest ih =>
    by_cases hp : p.1 = k
    · simp [mapSet, hp, mapGet, List.find?]
    · simp only [mapSet, hp, if_false]
      simpa [mapGet, List.find?_cons, hp] using ih

/-- Absence of a key is absence from every entry. -/
theorem mapGet_eq_none_iff {k : Str} {c : Cache} :
    mapGet k c = none ↔ ∀ p ∈ c, p.1 ≠ k := by
  simp [mapGet, List.find?_eq_none]

/-- Setting an absent key appends the new entry at the end. -/
theorem mapSet_of_absent (k : Str) (v : CacheEntry) :
    ∀ {c : Cache}, (∀ p ∈ c, p.1 ≠ k) → mapSet k v c = c ++ [(k, v)] := by
  intro c
  induction c with
  | nil => intro _; rfl
  | cons p rest ih =>
    intro h
    have hp : p.1 ≠ k := h p (List.mem_cons_self p rest)
    simp [mapSet, hp, ih (fun q hq => h q (List.mem_cons_of_mem p hq))]

/-- Deletion never grows the map. -/
theorem mapDelete_length_le (k : Str) : ∀ c : Cache, (mapDelete k c).length ≤ c.length := by
  intro c
  induction c with
  | nil => simp [mapDelete]
  | cons p rest ih =>
    by_cases hp : p.1 = k
    · simp [mapDelete, hp]
    · simp [mapDelete, hp]; omega

/-- Setting grows the map by at most one entry. -/
theorem mapSet_length_le (k : Str) (v : CacheEntry) :
    ∀ c : Cache, (mapSet k v c).length ≤ c.length + 1 := by
  intro c
  induction c with
  | nil => simp [mapSet]
  | cons p rest ih =>
    by_cases hp : p.1 = k
    · simp [mapSet, hp]
    · simp [mapSet, hp]; omega

/-- Deleting the head's own key removes exactly the head. -/
theorem mapDelete_cons_self (p : Str × CacheEntry) (rest : Cache) :
    mapDelete p.1 (p :: rest) = rest := by
  simp [mapDelete]

/-- Every entry surviving a purge is a yet-unexpired entry of the original. -/
theorem mem_purge {now : Int} {c : Cache} {p : Str × CacheEntry}
    (h : p ∈ purgeExpiredCacheEntries now c) : p ∈ c ∧ now < p.2.expiresAt := by
  have := List.mem_filter.mp h
  exact ⟨this.1, by simpa using this.2⟩

/-- Purging twice at the same instant is purging once. -/
theorem purge_idem (now : Int) (c : Cache) :
    purgeExpiredCacheEntries now (purgeExpiredCacheEntries now c) =
      purgeExpiredCacheEntries now c := by
  simp [purgeExpiredCacheEntries, List.filter_filter]

/-- Purging never grows the store. -/
theorem purge_length_le (now : Int) (c : Cache) :
    (purgeExpiredCacheEntries now c).length ≤ c.length :=
  c.length_filter_le _

/-- Characterisation of `getCachedFetchResult`: the store ends up fully
purged, and the result is the purged store's entry for the trimmed key (whose
individual-expiry branch can no longer fire after the purge). -/
theorem getCachedFetchResult_spec (now : Int) (u : Str) (c : Cache) :
    getCachedFetchResult now u c =
      ((mapGet (jsTrim u) (purgeExpiredCacheEntries now c)).map
        (fun e => (e.value, e.expiresAt - now)),
       purgeExpiredCacheEntries now c) := by
  unfold getCachedFetchResult
  rcases h : mapGet (getCacheKey u) (purgeExpiredCacheEntries now c) with _ | ⟨e⟩
  · simp [getCacheKey] at h ⊢
    simp [h]
  · have hmem : ∃ p ∈ purgeExpiredCacheEntries now c, p.2 = e := by
      rcases hf : (purgeExpiredCacheEntries now c).find? (fun p => p.1 = getCacheKey u) with _ | ⟨q⟩
      · simp [mapGet, hf] at h
      · exact ⟨q, List.mem_of_find?_eq_some hf, by simpa [mapGet, hf] using h⟩
    obtain ⟨p, hp, hpe⟩ := hmem
    have hexp : now < e.expiresAt := hpe ▸ (mem_purge hp).2
    have hneg : ¬(e.expiresAt - now ≤ 0) := by omega
    simp [getCacheKey] at h ⊢
    simp [h, hneg]
    exact hexp

/-
Auxiliary lemmas about leftmost-occurrence replacement.
-/

/-- `processSub` is the identity on `$`-free replacement text. -/
theorem processSub_dollarFree {m b a : Str} :
    ∀ {rep : Str}, dollarFree rep = true → processSub m b a rep = rep := by
  intro rep
  induction rep with
  | nil => intro _; rfl
  | cons c rest ih =>
    intro h
    rw [dollarFree, List.all_cons] at h
    obtain ⟨h1, h2⟩ := Bool.and_eq_true_iff.mp h
    have hc : (c == dollarChar) = false := by
      cases hcc : c == dollarChar
      · rfl
      · rw [hcc] at h1; simp at h1
    show processSub m b a (c :: rest) = c :: rest
    unfold processSub
    rw [hc]
    simp only [Bool.false_eq_true, if_false]
    rw [ih h2]

/-- When no occurrence of `pat` starts inside `pre`, `splitFirst` finds the
explicitly displayed occurrence.  The hypothesis says `pat` does not occur in
`pre ++ pat.dropLast`, the window containing every occurrence that would start
strictly before `pre.length`. -/
theorem splitFirst_append {pat : Str} (hne : pat ≠ []) :
    ∀ (pre suf : Str), occursb pat (pre ++ pat.dropLast) = false →
      splitFirst pat (pre ++ pat ++ suf) = some (pre, suf) := by
  intro pre
  induction pre with
  | nil =>
    intro suf _
    rcases hp : pat with _ | ⟨a, pt⟩
    · exact absurd hp hne
    · subst hp
      simp only [List.nil_append, List.cons_append]
      have hpref : (a :: pt).isPrefixOf (a :: (pt ++ suf)) = true := by
        rw [List.isPrefixOf_iff_prefix]
        simpa using List.prefix_append (a :: pt) suf
      unfold splitFirst
      rw [hpref]
      simp only [if_true]
      have hdrop := List.drop_left (a :: pt) suf
      simp only [List.cons_append] at hdrop
      rw [hdrop]
  | cons x pre' ih =>
    intro suf h
    have hsplit : (x :: pre') ++ pat.dropLast = x :: (pre' ++ pat.dropLast) := rfl
    rw [hsplit, occursb, Bool.or_eq_false_iff] at h
    obtain ⟨hh, ht⟩ := h
    have hnp : pat.isPrefixOf (x :: (pre' ++ pat ++ suf)) = false := by
      cases hcon : pat.isPrefixOf (x :: (pre' ++ pat ++ suf)) with
      | false => rfl
      | true =>
        exfalso
        have hpfx : pat <+: x :: (pre' ++ pat ++ suf) :=
          List.isPrefixOf_iff_prefix.mp hcon
        have hdecomp : x :: (pre' ++ pat ++ suf) =
            (x :: (pre' ++ pat.dropLast)) ++ ([pat.getLast hne] ++ suf) := by
          conv_lhs => rw [← List.dropLast_append_getLast hne]
          simp
        have hplen : 1 ≤ pat.length := by
          rcases pat with _ | ⟨y, ys⟩
          · exact absurd rfl hne
          · simp
        have hlen : pat.length ≤ (x :: (pre' ++ pat.dropLast)).length := by
          simp [List.length_dropLast]
          omega
        have hpfx2 : pat <+: x :: (pre' ++ pat.dropLast) :=
          List.prefix_of_prefix_length_le (hdecomp ▸ hpfx) (List.prefix_append _ _) hlen
        rw [List.isPrefixOf_iff_prefix.mpr hpfx2] at hh
        exact Bool.true_eq_false ▸ hh
    have hih := ih suf ht
    show splitFirst pat (x :: (pre' ++ pat ++ suf)) = some (x :: pre', suf)
    unfold splitFirst
    rw [hnp]
    simp only [Bool.false_eq_true, if_false]
    rw [hih]
    rfl

/-- Leftmost replacement at the explicitly displayed occurrence. -/
theorem jsReplaceFirst_append {pat rep : Str} (hne : pat ≠ [])
    (hd : dollarFree rep = true) (pre suf : Str)
    (hocc : occursb pat (pre ++ pat.dropLast) = false) :
    jsReplaceFirst pat rep (pre ++ pat ++ suf) = pre ++ rep ++ suf := by
  unfold jsReplaceFirst
  rw [splitFirst_append hne pre suf hocc]
  simp [processSub_dollarFree hd]

/-
Cache store invariants.
-/

/-- A `put` into a store within a positive capacity bound stays within it. -/
theorem setCached_length_le (cfg : Config) (hM : 0 < cfg.cacheMaxEntries)
    (now : Int) (u : Str) (v : FetchResult) {c : Cache}
    (h : (c.length : Int) ≤ cfg.cacheMaxEntries) :
    ((setCachedFetchResult cfg now u v c).length : Int) ≤ cfg.cacheMaxEntries := by
  unfold setCachedFetchResult
  by_cases hdis : cfg.cacheTtlMs ≤ 0 ∨ cfg.cacheMaxEntries ≤ 0
  · simp only [hdis, if_true]; exact h
  · simp only [hdis, if_false]
    have hp : (purgeExpiredCacheEntries now c).length ≤ c.length := purge_length_le now c
    by_cases hcap : cfg.cacheMaxEntries ≤ ((purgeExpiredCacheEntries now c).length : Int)
    · rcases hc1 : purgeExpiredCacheEntries now c with _ | ⟨p, t⟩
      · rw [hc1] at hcap; simp at hcap; omega
      · rw [hc1] at hcap hp
        simp only [hcap, if_true, List.head?_cons, mapDelete_cons_self]
        have hms := mapSet_length_le (getCacheKey u) ⟨v, now + cfg.cacheTtlMs⟩ t
        simp at hp hcap
        have : ((mapSet (getCacheKey u) ⟨v, now + cfg.cacheTtlMs⟩ t).length : Int) ≤
            (t.length : Int) + 1 := by exact_mod_cast hms
        omega
    · simp only [hcap, if_false]
      have hms := mapSet_length_le (getCacheKey u) ⟨v, now + cfg.cacheTtlMs⟩
        (purgeExpiredCacheEntries now c)
      have h1 : ((mapSet (getCacheKey u) ⟨v, now + cfg.cacheTtlMs⟩
          (purgeExpiredCacheEntries now c)).length : Int) ≤
          ((purgeExpiredCacheEntries now c).length : Int) + 1 := by exact_mod_cast hms
      omega

/-- A `get` never grows the store. -/
theorem getCached_snd_length_le (now : Int) (u : Str) (c : Cache) :
    ((getCachedFetchResult now u c).2).length ≤ c.length := by
  rw [getCachedFetchResult_spec]
  exact purge_length_le now c

/-- Running any operation sequence from the empty store respects a positive
capacity bound. -/
theorem runCacheOps_length_le (cfg : Config) (hM : 0 < cfg.cacheMaxEntries)
    (ops : List CacheOp) :
    ((runCacheOps cfg ops).length : Int) ≤ cfg.cacheMaxEntries := by
  suffices haux : ∀ (ops : List CacheOp) (c : Cache),
      (c.length : Int) ≤ cfg.cacheMaxEntries →
      ((ops.foldl (applyCacheOp cfg) c).length : Int) ≤ cfg.cacheMaxEntries by
    exact haux ops [] (by simp; omega)
  intro ops
  induction ops with
  | nil => intro c h; simpa using h
  | cons op rest ih =>
    intro c h
    simp only [List.foldl_cons]
    apply ih
    cases op with
    | get now u =>
      have h1 : (((getCachedFetchResult now u c).2).length : Int) ≤ (c.length : Int) := by
        exact_mod_cast getCached_snd_length_le now u c
      calc ((applyCacheOp cfg c (CacheOp.get now u)).length : Int)
          = (((getCachedFetchResult now u c).2).length : Int) := rfl
        _ ≤ (c.length : Int) := h1
        _ ≤ cfg.cacheMaxEntries := h
    | put now u v => exact setCached_length_le cfg hM now u v h

/-- When the post-purge store is at or above a positive capacity, a `put`
removes exactly the head of the purged store — the earliest-inserted entry —
and then inserts. -/
theorem setCached_evicts_oldest (cfg : Config) (hT : 0 < cfg.cacheTtlMs)
    (hM : 0 < cfg.cacheMaxEntries) (now : Int) (u : Str) (v : FetchResult)
    {c : Cache}
    (hcap : cfg.cacheMaxEntries ≤ ((purgeExpiredCacheEntries now c).length : Int)) :
    setCachedFetchResult cfg now u v c =
      mapSet (jsTrim u) ⟨v, now + cfg.cacheTtlMs⟩
        ((purgeExpiredCacheEntries now c).tail) := by
  unfold setCachedFetchResult
  have hdis : ¬(cfg.cacheTtlMs ≤ 0 ∨ cfg.cacheMaxEntries ≤ 0) := by omega
  simp only [hdis, if_false]
  rcases hc1 : purgeExpiredCacheEntries now c with _ | ⟨p, t⟩
  · rw [hc1] at hcap; simp at hcap; omega
  · rw [hc1] at hcap
    simp only [hcap, if_true, List.head?_cons, mapDelete_cons_self, List.tail_cons]
    rfl

/-- C1: over every sequence of cache operations with a positive capacity, the
store holds at most `CACHE_MAX_ENTRIES` entries after any operation (in
particular immediately after any put), and a put that finds the purged store
at or above capacity evicts exactly the earliest-inserted tracked entry (the
head of the insertion-ordered store) before inserting, independent of expiry
times or access recency. -/
theorem C1_cache_capacity_fifo (cfg : Config) (hM : 0 < cfg.cacheMaxEntries) :
    (∀ ops : List CacheOp, ((runCacheOps cfg ops).length : Int) ≤ cfg.cacheMaxEntries) ∧
    (∀ (now : Int) (u : Str) (v : FetchResult) (c : Cache),
      0 < cfg.cacheTtlMs →
      cfg.cacheMaxEntries ≤ ((purgeExpiredCacheEntries now c).length : Int) →
      setCachedFetchResult cfg now u v c =
        mapSet (jsTrim u) ⟨v, now + cfg.cacheTtlMs⟩
          ((purgeExpiredCacheEntries now c).tail)) :=
  ⟨runCacheOps_length_le cfg hM,
   fun now u v c hT hcap => setCached_evicts_oldest cfg hT hM now u v hcap⟩

/-- Concrete configuration for witnesses: capacity 2, TTL 600000 ms. -/
def cfgEx : Config := ⟨some (str "tok"), 5000, 2, 1500, 600000, 2⟩

/-- Concrete cached value for witnesses. -/
def frEx : FetchResult := ⟨str "<p>hello</p>", str "text/html; charset=utf-8", none, none⟩

/-- Concrete operation sequence overfilling the capacity-2 cache. -/
def opsEx : List CacheOp :=
  [.put 0 (str "https://a.example") frEx,
   .put 1 (str "https://b.example") frEx,
   .put 2 (str "https://c.example") frEx]

/-- Concrete two-entry store for the eviction part of the C1 witness. -/
def storeEx : Cache :=
  [(str "https://a.example", ⟨frEx, 1000⟩), (str "https://b.example", ⟨frEx, 1000⟩)]

/-- Witness for C1 at a concrete configuration, operation sequence and store. -/
theorem C1_cache_capacity_fifo_witness :
    ((runCacheOps cfgEx opsEx).length : Int) ≤ cfgEx.cacheMaxEntries ∧
    setCachedFetchResult cfgEx 0 (str "https://c.example") frEx storeEx =
      mapSet (jsTrim (str "https://c.example")) ⟨frEx, 0 + cfgEx.cacheTtlMs⟩
        ((purgeExpiredCacheEntries 0 storeEx).tail) := by
  have h := C1_cache_capacity_fifo cfgEx (by decide)
  exact ⟨h.1 opsEx, h.2 0 (str "https://c.example") frEx storeEx (by decide) (by decide)⟩

/-- C6: a `get` first purges, across the whole store, every entry whose
`expiresAt` has passed; the result is exactly the purged store's entry for the
trimmed key (present entries are necessarily unexpired), and an entry whose
TTL has elapsed at read time is reported absent and is physically removed from
the store. -/
theorem C6_get_purges_and_expels (now : Int) (u : Str) (c : Cache)
    (huniq : (c.map Prod.fst).Nodup) :
    (getCachedFetchResult now u c =
      ((mapGet (jsTrim u) (purgeExpiredCacheEntries now c)).map
        (fun e => (e.value, e.expiresAt - now)),
       purgeExpiredCacheEntries now c)) ∧
    (∀ p ∈ (getCachedFetchResult now u c).2, now < p.2.expiresAt) ∧
    (∀ e : CacheEntry, mapGet (jsTrim u) c = some e → e.expiresAt ≤ now →
      (getCachedFetchResult now u c).1 = none ∧
      mapGet (jsTrim u) ((getCachedFetchResult now u c).2) = none) := by
  refine ⟨getCachedFetchResult_spec now u c, ?_, ?_⟩
  · intro p hp
    rw [getCachedFetchResult_spec] at hp
    exact (mem_purge hp).2
  · intro e hget hexp
    obtain ⟨q, hqfind, hqe⟩ : ∃ q, c.find? (fun p => p.1 = jsTrim u) = some q ∧ q.2 = e := by
      rcases hf : c.find? (fun p => p.1 = jsTrim u) with _ | ⟨q⟩
      · simp [mapGet, hf] at hget
      · exact ⟨q, hf, by simpa [mapGet, hf] using hget⟩
    have hqmem : q ∈ c := List.mem_of_find?_eq_some hqfind
    have hqkey : q.1 = jsTrim u := by simpa using List.find?_some hqfind
    have hnone : mapGet (jsTrim u) (purgeExpiredCacheEntries now c) = none := by
      rw [mapGet_eq_none_iff]
      intro p hp hkey
      have hpc := mem_purge hp
      have : p = q := List.inj_on_of_nodup_map huniq hpc.1 hqmem (by rw [hkey, hqkey])
      rw [this, hqe] at hpc
      omega
    rw [getCachedFetchResult_spec]
    simp [hnone]

/-- Concrete store holding one already-expired entry, for the C6 witness. -/
def staleStoreEx : Cache := [(str "https://a.example", ⟨frEx, 5⟩)]

/-- Witness for C6: reading the expired entry at time 10 reports absent and
removes it. -/
theorem C6_get_purges_and_expels_witness :
    (getCachedFetchResult 10 (str "https://a.example") staleStoreEx).1 = none ∧
    mapGet (jsTrim (str "https://a.example"))
      ((getCachedFetchResult 10 (str "https://a.example") staleStoreEx).2) = none := by
  have h := C6_get_purges_and_expels 10 (str "https://a.example") staleStoreEx (by decide)
  exact h.2.2 ⟨frEx, 5⟩ (by decide) (by decide)

/-- C5: when the markup client's first response is successful but its body
trims to nothing, the client's result is exactly that of one retry issued with
the settle delay increased by 3000 ms; when that retry's response is
successful its body — even another empty one — is returned to the caller, not
raised as an error. -/
theorem C5_markup_empty_body_retry (cfg : Config) (resps : Int → UpResp)
    (htok : hasToken cfg = true)
    (hok : (resps cfg.captureDelayMs).ok = true)
    (hempty : jsTrim (resps cfg.captureDelayMs).bodyText = []) :
    fetchHtmlFromBrowserless cfg resps = runRequest resps (cfg.captureDelayMs + 3000) ∧
    ((resps (cfg.captureDelayMs + 3000)).ok = true →
      fetchHtmlFromBrowserless cfg resps =
        .ok ⟨(resps (cfg.captureDelayMs + 3000)).bodyText,
             (resps (cfg.captureDelayMs + 3000)).contentType⟩) := by
  have hfirst : fetchHtmlFromBrowserless cfg resps =
      runRequest resps (cfg.captureDelayMs + 3000) := by
    unfold fetchHtmlFromBrowserless
    rw [htok]
    simp only [Bool.not_true, Bool.false_eq_true, if_false]
    unfold runRequest
    simp only [hok, if_true]
    simp [hempty]
  refine ⟨hfirst, fun hok2 => ?_⟩
  rw [hfirst]
  unfold runRequest
  simp [hok2]

/-- Concrete markup-response oracle for the C5 witness: the first attempt is a
200 with a whitespace body, the retried attempt a 200 with a real body. -/
def markupRespsEx : Int → UpResp := fun d =>
  if d = 5000 then ⟨true, 200, str "OK", str "  ", str "", some (str "text/html")⟩
  else ⟨true, 200, str "OK", str "<html>hi</html>", str "", some (str "text/html")⟩

/-- Witness for C5 at the concrete oracle. -/
theorem C5_markup_empty_body_retry_witness :
    fetchHtmlFromBrowserless cfgEx markupRespsEx =
      .ok ⟨(markupRespsEx 8000).bodyText, (markupRespsEx 8000).contentType⟩ := by
  have h := C5_markup_empty_body_retry cfgEx markupRespsEx (by decide) (by decide) (by decide)
  exact h.2 (by decide)

/-
Screenshot retry loop lemmas.
-/

/-- The wait list produced by the retry loop is `backoff * (attempt+1)`,
`backoff * (attempt+2)`, and so on, one term per retry performed. -/
theorem screenshotGo_waits (cfg : Config) (resps : Nat → UpResp) :
    ∀ (fuel attempt : Nat), (screenshotGo cfg resps fuel attempt).2 =
      (List.range (screenshotGo cfg resps fuel attempt).2.length).map
        (fun i : Nat => cfg.screenshotBackoffMs * ((attempt : Int) + (i : Int) + 1)) := by
  intro fuel
  induction fuel with
  | zero => intro attempt; simp [screenshotGo]
  | succ fuel ih =>
    intro attempt
    by_cases hok : (resps attempt).ok = true
    · simp [screenshotGo, hok]
    · by_cases hretry : (resps attempt).status = 429 ∧ (attempt : Int) < cfg.screenshotRetries
      · have hstep : (screenshotGo cfg resps (fuel + 1) attempt).2 =
            cfg.screenshotBackoffMs * ((attempt : Int) + 1) ::
              (screenshotGo cfg resps fuel (attempt + 1)).2 := by
          simp [screenshotGo, hok, hretry]
        rw [hstep, ih (attempt + 1)]
        simp only [List.length_cons, List.length_map, List.length_range,
          List.range_succ_eq_map, List.map_cons, List.map_map]
        rw [List.cons.injEq]
        refine ⟨by push_cast; ring, ?_⟩
        apply List.map_congr_left
        intro i _
        simp only [Function.comp_apply]
        push_cast; ring
      · simp [screenshotGo, hok, hretry]

/-- Every retry performed by the loop was preceded by a non-success response
with the rate-limit status 429, within the configured retry budget. -/
theorem screenshotGo_retries_on_429 (cfg : Config) (resps : Nat → UpResp) :
    ∀ (fuel attempt i : Nat), i < (screenshotGo cfg resps fuel attempt).2.length →
      (resps (attempt + i)).ok = false ∧ (resps (attempt + i)).status = 429 ∧
      ((attempt + i : Nat) : Int) < cfg.screenshotRetries := by
  intro fuel
  induction fuel with
  | zero => intro attempt i hi; simp [screenshotGo] at hi
  | succ fuel ih =>
    intro attempt i hi
    by_cases hok : (resps attempt).ok = true
    · simp [screenshotGo, hok] at hi
    · by_cases hretry : (resps attempt).status = 429 ∧ (attempt : Int) < cfg.screenshotRetries
      · have hstep : (screenshotGo cfg resps (fuel + 1) attempt).2 =
            cfg.screenshotBackoffMs * ((attempt : Int) + 1) ::
              (screenshotGo cfg resps fuel (attempt + 1)).2 := by
          simp [screenshotGo, hok, hretry]
        rw [hstep] at hi
        rcases i with _ | j
        · refine ⟨?_, ?_, ?_⟩
          · simpa using hok
          · simpa using hretry.1
          · simpa using hretry.2
        · have hj := ih (attempt + 1) j (by simpa using Nat.lt_of_succ_lt_succ hi)
          have ha : attempt + 1 + j = attempt + (j + 1) := by omega
          rw [ha] at hj
          exact hj
      · simp [screenshotGo, hok, hretry] at hi

/-- A non-success response that is not retryable fails the loop immediately
with the upstream error carrying that response's status and body. -/
theorem screenshotGo_immediate_fail (cfg : Config) (resps : Nat → UpResp)
    (fuel attempt : Nat) (hok : (resps attempt).ok = false)
    (hnc : ¬((resps attempt).status = 429 ∧ (attempt : Int) < cfg.screenshotRetries)) :
    screenshotGo cfg resps (fuel + 1) attempt =
      (.error (screenshotFailMsg (resps attempt).status (resps attempt).statusText
        (resps attempt).bodyText), []) := by
  simp [screenshotGo, hok, hnc]

/-- When every attempt within the budget is a 429 failure, the loop performs
all its retries and ends with the upstream error of the final 429 response. -/
theorem screenshotGo_exhaust (cfg : Config) (resps : Nat → UpResp)
    (hR : 0 ≤ cfg.screenshotRetries)
    (hall : ∀ i : Nat, (i : Int) ≤ cfg.screenshotRetries →
      (resps i).ok = false ∧ (resps i).status = 429) :
    ∀ (n attempt : Nat), (attempt : Int) + n = cfg.screenshotRetries →
      (screenshotGo cfg resps (n + 1) attempt).1 =
        .error (screenshotFailMsg 429 (resps cfg.screenshotRetries.toNat).statusText
          (resps cfg.screenshotRetries.toNat).bodyText) ∧
      (screenshotGo cfg resps (n + 1) attempt).2.length = n := by
  intro n
  induction n with
  | zero =>
    intro attempt hlast
    simp only [Nat.cast_zero, add_zero] at hlast
    have hattempt : attempt = cfg.screenshotRetries.toNat := by omega
    have hresp := hall attempt (by omega)
    have hnc : ¬((resps attempt).status = 429 ∧ (attempt : Int) < cfg.screenshotRetries) := by
      intro hcon
      omega
    rw [screenshotGo_immediate_fail cfg resps 0 attempt hresp.1 hnc]
    rw [← hattempt]
    simp [hresp.2]
  | succ n ih =>
    intro attempt hlast
    have hresp := hall attempt (by push_cast at hlast ⊢; omega)
    have hretry : (resps attempt).status = 429 ∧ (attempt : Int) < cfg.screenshotRetries := by
      refine ⟨hresp.2, ?_⟩
      push_cast at hlast
      omega
    have hok : ¬((resps attempt).ok = true) := by simp [hresp.1]
    have hstep1 : (screenshotGo cfg resps (n + 1 + 1) attempt).1 =
        (screenshotGo cfg resps (n + 1) (attempt + 1)).1 := by
      simp [screenshotGo, hok, hretry]
    have hstep2 : (screenshotGo cfg resps (n + 1 + 1) attempt).2 =
        cfg.screenshotBackoffMs * ((attempt : Int) + 1) ::
          (screenshotGo cfg resps (n + 1) (attempt + 1)).2 := by
      simp [screenshotGo, hok, hretry]
    have hih := ih (attempt + 1) (by push_cast at hlast ⊢; omega)
    refine ⟨?_, ?_⟩
    · rw [hstep1]; exact hih.1
    · rw [hstep2]; simp [hih.2]

/-- C4: the screenshot client retries only on a 429 rate-limit status and only
within the configured retry budget; the wait before the i-th retry (1-indexed)
is `backoffBase * i`, strictly increasing for a positive base; any non-429
non-success response fails immediately with the upstream error, and when every
attempt within the budget is rate-limited the client performs exactly
`SCREENSHOT_RETRIES` retries and fails with the terminal upstream error of the
final 429 response. -/
theorem C4_screenshot_retry_policy (cfg : Config) (resps : Nat → UpResp)
    (htok : hasToken cfg = true) (hR : 0 ≤ cfg.screenshotRetries) :
    ((fetchScreenshotFromBrowserless cfg resps).2 =
      (List.range (fetchScreenshotFromBrowserless cfg resps).2.length).map
        (fun i : Nat => cfg.screenshotBackoffMs * ((i : Int) + 1))) ∧
    (∀ i : Nat, i < (fetchScreenshotFromBrowserless cfg resps).2.length →
      (resps i).ok = false ∧ (resps i).status = 429 ∧
      (i : Int) < cfg.screenshotRetries) ∧
    (((fetchScreenshotFromBrowserless cfg resps).2.length : Int) ≤
      max cfg.screenshotRetries 0) ∧
    (0 < cfg.screenshotBackoffMs →
      (fetchScreenshotFromBrowserless cfg resps).2.Pairwise (· < ·)) ∧
    ((resps 0).ok = false → (resps 0).status ≠ 429 →
      fetchScreenshotFromBrowserless cfg resps =
        (.error (screenshotFailMsg (resps 0).status (resps 0).statusText
          (resps 0).bodyText), [])) ∧
    ((∀ i : Nat, (i : Int) ≤ cfg.screenshotRetries →
        (resps i).ok = false ∧ (resps i).status = 429) →
      (fetchScreenshotFromBrowserless cfg resps).1 =
        .error (screenshotFailMsg 429 (resps cfg.screenshotRetries.toNat).statusText
          (resps cfg.screenshotRetries.toNat).bodyText) ∧
      ((fetchScreenshotFromBrowserless cfg resps).2.length : Int) =
        cfg.screenshotRetries) := by
  have hunfold : fetchScreenshotFromBrowserless cfg resps =
      screenshotGo cfg resps (cfg.screenshotRetries + 1).toNat 0 := by
    unfold fetchScreenshotFromBrowserless
    rw [htok]
    simp
  have hfuel : (cfg.screenshotRetries + 1).toNat = cfg.screenshotRetries.toNat + 1 := by
    omega
  have hwaits := screenshotGo_waits cfg resps (cfg.screenshotRetries + 1).toNat 0
  have hretries := screenshotGo_retries_on_429 cfg resps (cfg.screenshotRetries + 1).toNat 0
  refine ⟨?_, ?_, ?_, ?_, ?_, ?_⟩
  · rw [hunfold]
    rw [hwaits]
    simp only [List.length_map, List.length_range]
    apply List.map_congr_left
    intro i _
    push_cast; ring
  · intro i hi
    rw [hunfold] at hi
    have := hretries i hi
    simpa using this
  · rw [hunfold]
    rcases hl : (screenshotGo cfg resps (cfg.screenshotRetries + 1).toNat 0).2.length with _ | m
    · simp
    · have := hretries m (by omega)
      simp only [Nat.zero_add] at this
      have h2 := this.2.2
      push_cast
      omega
  · intro hb
    rw [hunfold, hwaits]
    have hpw : (List.range (screenshotGo cfg resps
        (cfg.screenshotRetries + 1).toNat 0).2.length).Pairwise (· < ·) :=
      List.pairwise_lt_range _
    refine List.Pairwise.map _ ?_ hpw
    intro a b hab
    have : ((0 : Int) + a + 1) < ((0 : Int) + b + 1) := by push_cast; omega
    exact mul_lt_mul_of_pos_left this hb
  · intro hok hst
    rw [hunfold, hfuel]
    exact screenshotGo_immediate_fail cfg resps cfg.screenshotRetries.toNat 0 hok
      (by intro hcon; exact hst hcon.1)
  · intro hall
    rw [hunfold, hfuel]
    have h := screenshotGo_exhaust cfg resps hR hall cfg.screenshotRetries.toNat 0
      (by push_cast; omega)
    refine ⟨h.1, ?_⟩
    rw [h.2]
    omega

/-- Concrete always-rate-limited screenshot oracle for the C4 witness. -/
def shotResps429Ex : Nat → UpResp :=
  fun _ => ⟨false, 429, str "Too Many Requests", str "slow down", str "", none⟩

/-- Witness for C4 at the concrete oracle: with retries 2 and backoff 1500 the
client performs two retries and fails with the terminal 429 upstream error. -/
theorem C4_screenshot_retry_policy_witness :
    (fetchScreenshotFromBrowserless cfgEx shotResps429Ex).1 =
      .error (screenshotFailMsg 429 (shotResps429Ex 2).statusText
        (shotResps429Ex 2).bodyText) ∧
    ((fetchScreenshotFromBrowserless cfgEx shotResps429Ex).2.length : Int) = 2 := by
  have h := C4_screenshot_retry_policy cfgEx shotResps429Ex (by decide) (by decide)
  exact h.2.2.2.2.2 (fun i _ => ⟨rfl, rfl⟩)

/-- Field lookup on a single-field object finds that field. -/
theorem jsonField_singleton_self (k : Str) (v : Json) :
    jsonField (.obj [(k, v)]) k = some v := by
  simp [jsonField, List.find?]

/-- Field lookup on a single-field object misses any other key. -/
theorem jsonField_singleton_ne (k k2 : Str) (v : Json) (h : ¬(k = k2)) :
    jsonField (.obj [(k, v)]) k2 = none := by
  simp [jsonField, List.find?, h]

/-- C9: a request body whose trimmed text begins with `http://` or `https://`
(case-insensitively) is accepted by the body parser without any JSON parsing
(the result is the same for every `JSON.parse` oracle), yielding the payload
`{ url: trimmed }`, so the handler treats the trimmed text itself as the
target address. -/
theorem C9_bare_url_body (raw : Str) (jparse jparse2 : Str → Option Json)
    (h : startsHttpScheme (jsTrim raw) = true) :
    parseFetchBody jparse raw = some (.obj [(str "url", .str (jsTrim raw))]) ∧
    parseFetchBody jparse raw = parseFetchBody jparse2 raw ∧
    jsTrim (jsTrim raw) = jsTrim raw ∧
    (∀ (cfg : Config) (now : Int) (queryFormat : Option Str)
        (markupResps : Int → UpResp) (shotResps : Nat → UpResp)
        (css : CssOracle) (c : Cache),
      handleFetchRequest cfg now raw queryFormat jparse markupResps shotResps css c =
        handleFetch cfg now (jsTrim raw) (resolveFormat none queryFormat)
          markupResps shotResps css c) := by
  have hne : jsTrim raw ≠ [] := by
    intro hnil
    rcases Bool.or_eq_true_iff.mp h with h1 | h1 <;>
      · have := ciPrefixOf_length_le h1
        rw [hnil] at this
        simp [str] at this
  have hparse : parseFetchBody jparse raw = some (.obj [(str "url", .str (jsTrim raw))]) := by
    unfold parseFetchBody
    have hie : (jsTrim raw).isEmpty = false := by
      rcases he : jsTrim raw with _ | _
      · exact absurd he hne
      · rfl
    simp only [hie, Bool.false_eq_true, if_false, h, if_true]
  have hparse2 : parseFetchBody jparse2 raw = some (.obj [(str "url", .str (jsTrim raw))]) := by
    unfold parseFetchBody
    have hie : (jsTrim raw).isEmpty = false := by
      rcases he : jsTrim raw with _ | _
      · exact absurd he hne
      · rfl
    simp only [hie, Bool.false_eq_true, if_false, h, if_true]
  refine ⟨hparse, hparse.trans hparse2.symm, jsTrim_idem raw, ?_⟩
  intro cfg now queryFormat markupResps shotResps css c
  unfold handleFetchRequest
  rw [hparse]
  have hie2 : (jsTrim (jsTrim raw)).isEmpty = false := by
    rw [jsTrim_idem]
    rcases he : jsTrim raw with _ | _
    · exact absurd he hne
    · rfl
  simp only [jsonField_singleton_self,
    jsonField_singleton_ne (str "url") (str "format") _ (by decide),
    hie2, Bool.false_eq_true, if_false]

/-- Witness for C9 at a concrete bare-URL body. -/
theorem C9_bare_url_body_witness :
    parseFetchBody (fun _ => none) (str "  HTTPS://Example.com/page ") =
      some (.obj [(str "url", .str (jsTrim (str "  HTTPS://Example.com/page ")))]) := by
  have h := C9_bare_url_body (str "  HTTPS://Example.com/page ")
    (fun _ => none) (fun _ => some .null) (by decide)
  exact h.1

/-- C10: the resolved markup content type is never empty: a present, non-blank
upstream content type is used verbatim, and otherwise the body sniff selects
`text/html; charset=utf-8` exactly when the body (after leading whitespace,
lowercased) starts with `<!doctype html` or `<html`, else
`text/plain; charset=utf-8`. -/
theorem C10_content_type_never_empty (contentType : Option Str) (body : Str) :
    pickResponseContentType contentType body ≠ [] ∧
    (∀ s : Str, contentType = some s → jsTrim s ≠ [] →
      pickResponseContentType contentType body = s) ∧
    ((contentType = none ∨ (∃ s, contentType = some s ∧ jsTrim s = [])) →
      pickResponseContentType contentType body =
        (if looksHtml body then str "text/html; charset=utf-8"
         else str "text/plain; charset=utf-8")) := by
  refine ⟨?_, ?_, ?_⟩
  · rcases contentType with _ | s
    · unfold pickResponseContentType
      by_cases hb : looksHtml body = true <;> simp [hb] <;> decide
    · unfold pickResponseContentType
      by_cases hc : (!s.isEmpty && !(jsTrim s).isEmpty) = true
      · simp only [hc, if_true]
        intro hnil
        rw [hnil] at hc
        simp at hc
      · simp only [hc, Bool.false_eq_true, if_false]
        by_cases hb : looksHtml body = true <;> simp [hb] <;> decide
  · intro s hs htrim
    subst hs
    have hse : s.isEmpty = false := by
      rcases he : s with _ | _
      · rw [he] at htrim; exact absurd rfl htrim
      · rfl
    have hte : (jsTrim s).isEmpty = false := by
      rcases he : jsTrim s with _ | _
      · exact absurd he htrim
      · rfl
    unfold pickResponseContentType
    simp [hse, hte]
  · intro hcase
    rcases hcase with hnone | ⟨s, hs, htrim⟩
    · subst hnone
      rfl
    · subst hs
      have hte : (jsTrim s).isEmpty = true := by rw [htrim]; rfl
      unfold pickResponseContentType
      simp [hte]

/-- Witness for C10: a blank upstream content type with an HTML body resolves
to the HTML default. -/
theorem C10_content_type_never_empty_witness :
    pickResponseContentType (some (str "  ")) (str " <HTML><p>x</p>") ≠ [] ∧
    pickResponseContentType (some (str "  ")) (str " <HTML><p>x</p>") =
      (if looksHtml (str " <HTML><p>x</p>") then str "text/html; charset=utf-8"
       else str "text/plain; charset=utf-8") := by
  have h := C10_content_type_never_empty (some (str "  ")) (str " <HTML><p>x</p>")
  exact ⟨h.1, h.2.2 (Or.inr ⟨str "  ", rfl, by decide⟩)⟩

/-
Orchestrator path lemmas.
-/

/-- The store returned by a `get` is the purged store. -/
theorem getCached_snd_eq (now : Int) (u : Str) (c : Cache) :
    (getCachedFetchResult now u c).2 = purgeExpiredCacheEntries now c := by
  rw [getCachedFetchResult_spec]

/-- Deletion only removes entries. -/
theorem mem_mapDelete_imp (k : Str) :
    ∀ {c : Cache} {p : Str × CacheEntry}, p ∈ mapDelete k c → p ∈ c := by
  intro c
  induction c with
  | nil => intro p hp; simp [mapDelete] at hp
  | cons q rest ih =>
    intro p hp
    by_cases hq : q.1 = k
    · rw [mapDelete, if_pos hq] at hp
      exact List.mem_cons_of_mem q hp
    · rw [mapDelete, if_neg hq] at hp
      rcases List.mem_cons.mp hp with h1 | h1
      · exact h1 ▸ List.mem_cons_self q rest
      · exact List.mem_cons_of_mem q (ih h1)

/-- Lookup skips a prefix free of the key. -/
theorem mapGet_append_absent (k : Str) :
    ∀ {c1 : Cache} (c2 : Cache), (∀ p ∈ c1, p.1 ≠ k) →
      mapGet k (c1 ++ c2) = mapGet k c2 := by
  intro c1
  induction c1 with
  | nil => intro c2 _; rfl
  | cons q rest ih =>
    intro c2 h
    have hq : q.1 ≠ k := h q (List.mem_cons_self q rest)
    rw [List.cons_append]
    show ((q :: (rest ++ c2)).find? (fun p => p.1 = k)).map (fun p => p.2) = _
    rw [List.find?_cons_of_neg _ (by simpa using hq)]
    exact ih c2 (fun p hp => h p (List.mem_cons_of_mem q hp))

/-- A `put` of an absent key appends the entry (with `expiresAt = now + TTL`)
after a key-free store front. -/
theorem setCached_append (cfg : Config) (hT : 0 < cfg.cacheTtlMs)
    (hM : 0 < cfg.cacheMaxEntries) (now : Int) (u : Str) (v : FetchResult)
    (S : Cache)
    (habs : mapGet (jsTrim u) (purgeExpiredCacheEntries now S) = none) :
    ∃ c2 : Cache,
      setCachedFetchResult cfg now u v S =
        c2 ++ [(jsTrim u, ⟨v, now + cfg.cacheTtlMs⟩)] ∧
      ∀ p ∈ c2, p.1 ≠ jsTrim u := by
  have habs' := mapGet_eq_none_iff.mp habs
  unfold setCachedFetchResult
  have hdis : ¬(cfg.cacheTtlMs ≤ 0 ∨ cfg.cacheMaxEntries ≤ 0) := by omega
  simp only [hdis, if_false]
  by_cases hcap : cfg.cacheMaxEntries ≤ ((purgeExpiredCacheEntries now S).length : Int)
  · simp only [hcap, if_true]
    rcases hh : (purgeExpiredCacheEntries now S).head? with _ | ⟨oldest⟩
    · exact ⟨purgeExpiredCacheEntries now S,
        mapSet_of_absent (jsTrim u) ⟨v, now + cfg.cacheTtlMs⟩ habs', habs'⟩
    · have habs2 : ∀ p ∈ mapDelete oldest.1 (purgeExpiredCacheEntries now S),
          p.1 ≠ jsTrim u := fun p hp => habs' p (mem_mapDelete_imp oldest.1 hp)
      exact ⟨mapDelete oldest.1 (purgeExpiredCacheEntries now S),
        mapSet_of_absent (jsTrim u) ⟨v, now + cfg.cacheTtlMs⟩ habs2, habs2⟩
  · simp only [hcap, if_false]
    exact ⟨purgeExpiredCacheEntries now S,
      mapSet_of_absent (jsTrim u) ⟨v, now + cfg.cacheTtlMs⟩ habs', habs'⟩

/-- The cache-miss path of the orchestrator with a non-empty markup body:
best-effort screenshot, conditional CSS inlining, cache write, response
shaping, with the screenshot client having been invoked. -/
theorem handleFetch_miss (cfg : Config) (now : Int) (payloadUrl format : Str)
    (markupResps : Int → UpResp) (shotResps : Nat → UpResp) (css : CssOracle)
    (c : Cache) (r : MarkupOut)
    (hmiss : (getCachedFetchResult now (jsTrim payloadUrl) c).1 = none)
    (hhtml : fetchHtmlFromBrowserless cfg markupResps = .ok r)
    (hbody : jsTrim r.body ≠ []) :
    handleFetch cfg now payloadUrl format markupResps shotResps css c =
      (let shot := (fetchScreenshotFromBrowserless cfg shotResps).1
       let body1 := if isHtmlContentType r.contentType r.body then
           inlineExternalCss css (jsTrim payloadUrl) r.body else r.body
       let fr : FetchResult :=
         ⟨body1, pickResponseContentType r.contentType body1,
          match shot with | .ok s => some s | .error _ => none,
          match shot with | .ok _ => none | .error m => some (screenshotWarningOf m)⟩
       (shapeResponse (jsTrim payloadUrl) format fr,
        setCachedFetchResult cfg now (jsTrim payloadUrl) fr
          (purgeExpiredCacheEntries now c), true)) := by
  have hbe : (jsTrim r.body).isEmpty = false := by
    rcases he : jsTrim r.body with _ | _
    · exact absurd he hbody
    · rfl
  simp only [handleFetch, hmiss, hhtml, getCached_snd_eq, hbe, Bool.false_eq_true, if_false]

/-- The cache-hit path of the orchestrator: the stored value is replayed
verbatim, the store is only purged, and no upstream client is invoked. -/
theorem handleFetch_hit (cfg : Config) (now : Int) (payloadUrl format : Str)
    (markupResps : Int → UpResp) (shotResps : Nat → UpResp) (css : CssOracle)
    (c : Cache) (e : CacheEntry)
    (hhit : mapGet (jsTrim payloadUrl) (purgeExpiredCacheEntries now c) = some e) :
    handleFetch cfg now payloadUrl format markupResps shotResps css c =
      (shapeResponse (jsTrim payloadUrl) format e.value,
       purgeExpiredCacheEntries now c, false) := by
  have hfst : (getCachedFetchResult now (jsTrim payloadUrl) c).1 =
      some (e.value, e.expiresAt - now) := by
    rw [getCachedFetchResult_spec, jsTrim_idem]
    simp [hhit]
  simp only [handleFetch, hfst, getCached_snd_eq]

/-- The stylesheet tag that appears twice in the C7 counterexample. -/
def dupTagEx : Str := str "<link rel=\"stylesheet\" href=\"a.css\">"

/-- Stylesheet oracle of the C7 counterexample: every fetch succeeds and the
fetched stylesheet text is the tag text itself. -/
def cssSelfEx : CssOracle := fun _ _ => .respOk (str "https://e.example/a.css") dupTagEx

/-- C7 counterexample: the tag text appears verbatim twice and every fetch for
it succeeds (deterministically, so the first successful fetch's result is the
only result), yet the post-processor's output is not the claimed
every-occurrence replacement: because each iteration replaces only the
leftmost remaining occurrence, the second iteration matches the copy of the
tag inside the style block just inserted, and the second original occurrence
survives unreplaced. -/
theorem C7_counterexample :
    extractStylesheetLinks (dupTagEx ++ dupTagEx) =
      [⟨dupTagEx, str "a.css"⟩, ⟨dupTagEx, str "a.css"⟩] ∧
    cssFailed (cssSelfEx (str "a.css") (str "https://e.example")) = false ∧
    inlineExternalCss cssSelfEx (str "https://e.example") (dupTagEx ++ dupTagEx) ≠
      styleBlock (str "https://e.example/a.css") dupTagEx ++
        styleBlock (str "https://e.example/a.css") dupTagEx := by
  refine ⟨by decide, rfl, by decide⟩

/-- C7 (amended): for markup in which the same stylesheet tag text appears
verbatim twice (with no overlapping occurrence starting earlier) and whose
stylesheet fetch succeeds, every occurrence is replaced by the successful
fetch's style block — provided the inserted style block does not itself
contain the tag text; each successful iteration replaces the leftmost
remaining occurrence, in document order, by exact textual substring
replacement. -/
theorem C7_duplicate_tag_replacement (a b c tag href cssUrl cssText pageUrl : Str)
    (css : CssOracle)
    (hx : extractStylesheetLinks (a ++ tag ++ b ++ tag ++ c) =
      [⟨tag, href⟩, ⟨tag, href⟩])
    (hcss : css href pageUrl = .respOk cssUrl cssText)
    (htag : tag ≠ [])
    (hd : dollarFree (styleBlock cssUrl cssText) = true)
    (h1 : occursb tag (a ++ tag.dropLast) = false)
    (h2 : occursb tag (a ++ styleBlock cssUrl cssText ++ b ++ tag.dropLast) = false) :
    inlineExternalCss css pageUrl (a ++ tag ++ b ++ tag ++ c) =
      a ++ styleBlock cssUrl cssText ++ b ++ styleBlock cssUrl cssText ++ c := by
  unfold inlineExternalCss
  rw [hx]
  simp only [List.foldl_cons, List.foldl_nil, inlineStep, hcss]
  have e1 : a ++ tag ++ b ++ tag ++ c = a ++ tag ++ (b ++ tag ++ c) := by
    simp [List.append_assoc]
  rw [e1, jsReplaceFirst_append htag hd a (b ++ tag ++ c) h1]
  have e2 : a ++ styleBlock cssUrl cssText ++ (b ++ tag ++ c) =
      (a ++ styleBlock cssUrl cssText ++ b) ++ tag ++ c := by
    simp [List.append_assoc]
  rw [e2, jsReplaceFirst_append htag hd (a ++ styleBlock cssUrl cssText ++ b) c
    (by simpa [List.append_assoc] using h2)]

/-- Stylesheet oracle for the C7 witness: an ordinary stylesheet body. -/
def cssOkEx : CssOracle := fun _ _ => .respOk (str "https://e.example/a.css") (str "body{color:red}")

/-- Witness for the amended C7 at concrete markup with the tag duplicated. -/
theorem C7_duplicate_tag_replacement_witness :
    inlineExternalCss cssOkEx (str "https://e.example")
      (str "<p>" ++ dupTagEx ++ str "</p><div>" ++ dupTagEx ++ str "</div>") =
      str "<p>" ++ styleBlock (str "https://e.example/a.css") (str "body{color:red}") ++
        str "</p><div>" ++
        styleBlock (str "https://e.example/a.css") (str "body{color:red}") ++
        str "</div>" := by
  exact C7_duplicate_tag_replacement (str "<p>") (str "</p><div>") (str "</div>")
    dupTagEx (str "a.css") (str "https://e.example/a.css") (str "body{color:red}")
    (str "https://e.example") cssOkEx (by decide) rfl (by decide) (by decide)
    (by decide) (by decide)

/-- A failed per-link fetch leaves the running output untouched. -/
theorem inlineStep_failed {css : CssOracle} {pageUrl : Str} {l : LinkRef}
    (h : cssFailed (css l.href pageUrl) = true) (out : Str) :
    inlineStep css pageUrl out l = out := by
  unfold inlineStep
  rcases hc : css l.href pageUrl with _ | _ | _
  · rfl
  · rfl
  · rw [hc] at h
    simp [cssFailed] at h

/-- When every extracted link's fetch fails, the post-processor is the
identity. -/
theorem inline_all_failed (css : CssOracle) (pageUrl : Str) :
    ∀ (links : List LinkRef) (out : Str),
      (∀ l ∈ links, cssFailed (css l.href pageUrl) = true) →
      links.foldl (inlineStep css pageUrl) out = out := by
  intro links
  induction links with
  | nil => intro out _; rfl
  | cons l rest ih =>
    intro out h
    rw [List.foldl_cons, inlineStep_failed (h l (List.mem_cons_self l rest)) out]
    exact ih out (fun q hq => h q (List.mem_cons_of_mem l hq))

/-- C8: post-processing is best-effort and never fails the request: a per-link
stylesheet-fetch failure (thrown error or non-success status) leaves that
link's tag untouched and processing continues with the remaining links; when
every link fetch fails the markup is returned unprocessed; and on a cache miss
with a good markup body the orchestrator produces, for every stylesheet
oracle, a shaped success response (never a 500, 502 or 400) whose html is the
post-processor's output — the unprocessed markup when all link fetches
failed. -/
theorem C8_postprocessing_never_fatal :
    (∀ (css : CssOracle) (pageUrl out : Str) (l : LinkRef) (rest : List LinkRef),
      cssFailed (css l.href pageUrl) = true →
      (l :: rest).foldl (inlineStep css pageUrl) out =
        rest.foldl (inlineStep css pageUrl) out) ∧
    (∀ (css : CssOracle) (pageUrl html : Str),
      (∀ l ∈ extractStylesheetLinks html, cssFailed (css l.href pageUrl) = true) →
      inlineExternalCss css pageUrl html = html) ∧
    (∀ (cfg : Config) (now : Int) (payloadUrl format : Str)
        (markupResps : Int → UpResp) (shotResps : Nat → UpResp) (css : CssOracle)
        (c : Cache) (r : MarkupOut),
      (getCachedFetchResult now (jsTrim payloadUrl) c).1 = none →
      fetchHtmlFromBrowserless cfg markupResps = .ok r →
      jsTrim r.body ≠ [] →
      ∃ fr : FetchResult,
        (handleFetch cfg now payloadUrl format markupResps shotResps css c).1 =
          shapeResponse (jsTrim payloadUrl) format fr ∧
        fr.html = (if isHtmlContentType r.contentType r.body then
            inlineExternalCss css (jsTrim payloadUrl) r.body else r.body) ∧
        ((∀ l ∈ extractStylesheetLinks r.body,
            cssFailed (css l.href (jsTrim payloadUrl)) = true) →
          fr.html = r.body) ∧
        (∀ m : Str,
          (handleFetch cfg now payloadUrl format markupResps shotResps css c).1 ≠
            Outcome.serverError m) ∧
        (handleFetch cfg now payloadUrl format markupResps shotResps css c).1 ≠
          Outcome.emptyBody ∧
        (handleFetch cfg now payloadUrl format markupResps shotResps css c).1 ≠
          Outcome.badRequest) := by
  refine ⟨?_, ?_, ?_⟩
  · intro css pageUrl out l rest h
    rw [List.foldl_cons, inlineStep_failed h out]
  · intro css pageUrl html h
    exact inline_all_failed css pageUrl (extractStylesheetLinks html) html h
  · intro cfg now payloadUrl format markupResps shotResps css c r hmiss hhtml hbody
    have hme := handleFetch_miss cfg now payloadUrl format markupResps shotResps
      css c r hmiss hhtml hbody
    refine ⟨_, by rw [hme], rfl, ?_, ?_, ?_, ?_⟩
    · intro hall
      have hid : inlineExternalCss css (jsTrim payloadUrl) r.body = r.body :=
        inline_all_failed css (jsTrim payloadUrl) (extractStylesheetLinks r.body)
          r.body hall
      rw [hid]
      simp
    · intro m
      rw [hme]
      unfold shapeResponse
      by_cases hf : format = str "json" <;> simp [hf]
    · rw [hme]
      unfold shapeResponse
      by_cases hf : format = str "json" <;> simp [hf]
    · rw [hme]
      unfold shapeResponse
      by_cases hf : format = str "json" <;> simp [hf]

/-- All-failing stylesheet oracle for the C8 witness. -/
def cssFailEx : CssOracle := fun _ _ => .respFail 500

/-- Markup oracle for the C8 witness: an HTML page containing a stylesheet
link. -/
def markupRespsHtmlEx : Int → UpResp := fun _ =>
  ⟨true, 200, str "OK", str "<html>" ++ dupTagEx ++ str "<p>x</p></html>", str "",
    some (str "text/html")⟩

/-- Witness for C8: with every stylesheet fetch failing, the per-link step is
the identity and the whole post-processing pass returns the markup
unchanged. -/
theorem C8_postprocessing_never_fatal_witness :
    ([(⟨dupTagEx, str "a.css"⟩ : LinkRef)].foldl
        (inlineStep cssFailEx (str "https://e.example")) (str "<p>x</p>") =
      ([] : List LinkRef).foldl (inlineStep cssFailEx (str "https://e.example"))
        (str "<p>x</p>")) ∧
    inlineExternalCss cssFailEx (str "https://e.example")
      (str "<html>" ++ dupTagEx ++ str "<p>x</p></html>") =
      str "<html>" ++ dupTagEx ++ str "<p>x</p></html>" := by
  have h := C8_postprocessing_never_fatal
  exact ⟨h.1 cssFailEx (str "https://e.example") (str "<p>x</p>")
      ⟨dupTagEx, str "a.css"⟩ [] rfl,
    h.2.1 cssFailEx (str "https://e.example")
      (str "<html>" ++ dupTagEx ++ str "<p>x</p></html>") (fun l _ => by rfl)⟩

/-- C3: on a cache miss where the markup body is still empty or all-whitespace
after the markup client's own internal retry, the orchestrator fails the whole
request with the dedicated empty-body outcome (the 502 response, a
constructor distinct from the generic 500 upstream-error outcome), performs no
cache write (the store is only purged by the lookup), and never invokes the
screenshot client — the outcome is the same for every screenshot oracle and
the invocation flag stays false. -/
theorem C3_empty_body_fatal (cfg : Config) (now : Int) (payloadUrl format : Str)
    (markupResps : Int → UpResp) (css : CssOracle) (c : Cache) (r : MarkupOut)
    (hmiss : (getCachedFetchResult now (jsTrim payloadUrl) c).1 = none)
    (hhtml : fetchHtmlFromBrowserless cfg markupResps = .ok r)
    (hempty : jsTrim r.body = []) :
    (∀ shotResps : Nat → UpResp,
      handleFetch cfg now payloadUrl format markupResps shotResps css c =
        (.emptyBody, purgeExpiredCacheEntries now c, false)) ∧
    (∀ m : Str, Outcome.emptyBody ≠ Outcome.serverError m) := by
  constructor
  · intro shotResps
    have hbe : (jsTrim r.body).isEmpty = true := by rw [hempty]; rfl
    simp only [handleFetch, hmiss, hhtml, getCached_snd_eq, hbe, if_true]
  · intro m hcon
    exact Outcome.noConfusion hcon

/-- Markup oracle for the C3 witness: both attempts succeed with an
all-whitespace body. -/
def markupRespsBlankEx : Int → UpResp := fun _ =>
  ⟨true, 200, str "OK", str "  ", str "", some (str "text/html")⟩

/-- Witness for C3 at a concrete cache-miss request whose markup body stays
blank after the retry: the 502 outcome, an untouched (purged-only) empty
store, and no screenshot attempt. -/
theorem C3_empty_body_fatal_witness :
    handleFetch cfgEx 0 (str "https://x.example") (str "json") markupRespsBlankEx
      shotResps429Ex cssFailEx [] =
      (.emptyBody, purgeExpiredCacheEntries 0 [], false) := by
  have h := C3_empty_body_fatal cfgEx 0 (str "https://x.example") (str "json")
    markupRespsBlankEx cssFailEx [] ⟨str "  ", some (str "text/html")⟩
    rfl rfl (by decide)
  exact h.1 shotResps429Ex

/-- C2: on a cache miss where markup succeeds with a non-empty body and the
screenshot client terminally fails, the request still succeeds: the assembled
`FetchResult` has no screenshot and carries the failure detail as its
`screenshotWarning`; exactly that result is written to the cache with expiry
`now + TTL`; and any later request for the same address before that expiry is
served from the cache verbatim — the same result is replayed for every choice
of later upstream and stylesheet oracles, with the screenshot client not
invoked. -/
theorem C2_screenshot_failure_cached_and_replayed (cfg : Config)
    (now now2 : Int) (payloadUrl format : Str) (markupResps : Int → UpResp)
    (shotResps : Nat → UpResp) (css : CssOracle) (c : Cache) (r : MarkupOut)
    (e : Str)
    (hT : 0 < cfg.cacheTtlMs) (hM : 0 < cfg.cacheMaxEntries)
    (hmiss : (getCachedFetchResult now (jsTrim payloadUrl) c).1 = none)
    (hhtml : fetchHtmlFromBrowserless cfg markupResps = .ok r)
    (hbody : jsTrim r.body ≠ [])
    (hshot : (fetchScreenshotFromBrowserless cfg shotResps).1 = .error e)
    (hnow2 : now2 < now + cfg.cacheTtlMs) :
    (let body1 := if isHtmlContentType r.contentType r.body then
        inlineExternalCss css (jsTrim payloadUrl) r.body else r.body
     let fr : FetchResult := ⟨body1, pickResponseContentType r.contentType body1,
        none, some (screenshotWarningOf e)⟩
     handleFetch cfg now payloadUrl format markupResps shotResps css c =
       (shapeResponse (jsTrim payloadUrl) format fr,
        setCachedFetchResult cfg now (jsTrim payloadUrl) fr
          (purgeExpiredCacheEntries now c), true) ∧
     mapGet (jsTrim payloadUrl)
       (handleFetch cfg now payloadUrl format markupResps shotResps css c).2.1 =
       some ⟨fr, now + cfg.cacheTtlMs⟩ ∧
     (∀ (format2 : Str) (markupResps2 : Int → UpResp) (shotResps2 : Nat → UpResp)
        (css2 : CssOracle),
       handleFetch cfg now2 payloadUrl format2 markupResps2 shotResps2 css2
         (handleFetch cfg now payloadUrl format markupResps shotResps css c).2.1 =
         (shapeResponse (jsTrim payloadUrl) format2 fr,
          purgeExpiredCacheEntries now2
            (handleFetch cfg now payloadUrl format markupResps shotResps css c).2.1,
          false))) := by
  intro body1 fr
  have h1 : handleFetch cfg now payloadUrl format markupResps shotResps css c =
      (shapeResponse (jsTrim payloadUrl) format fr,
       setCachedFetchResult cfg now (jsTrim payloadUrl) fr
         (purgeExpiredCacheEntries now c), true) := by
    rw [handleFetch_miss cfg now payloadUrl format markupResps shotResps css c r
      hmiss hhtml hbody]
    simp only [hshot]
  have habs : mapGet (jsTrim (jsTrim payloadUrl))
      (purgeExpiredCacheEntries now (purgeExpiredCacheEntries now c)) = none := by
    rw [purge_idem, jsTrim_idem]
    have hspec := getCachedFetchResult_spec now (jsTrim payloadUrl) c
    rw [hspec] at hmiss
    simp only [jsTrim_idem] at hmiss
    exact Option.map_eq_none'.mp hmiss
  obtain ⟨c2, hc2eq, hc2abs⟩ := setCached_append cfg hT hM now (jsTrim payloadUrl)
    fr (purgeExpiredCacheEntries now c) habs
  rw [jsTrim_idem] at hc2eq hc2abs
  have hlook : mapGet (jsTrim payloadUrl)
      (handleFetch cfg now payloadUrl format markupResps shotResps css c).2.1 =
      some ⟨fr, now + cfg.cacheTtlMs⟩ := by
    rw [h1]
    show mapGet (jsTrim payloadUrl)
      (setCachedFetchResult cfg now (jsTrim payloadUrl) fr
        (purgeExpiredCacheEntries now c)) = _
    rw [hc2eq, mapGet_append_absent (jsTrim payloadUrl) [((jsTrim payloadUrl),
      ⟨fr, now + cfg.cacheTtlMs⟩)] hc2abs]
    simp [mapGet, List.find?]
  refine ⟨h1, hlook, ?_⟩
  intro format2 markupResps2 shotResps2 css2
  have hhit2 : mapGet (jsTrim payloadUrl)
      (purgeExpiredCacheEntries now2
        (handleFetch cfg now payloadUrl format markupResps shotResps css c).2.1) =
      some ⟨fr, now + cfg.cacheTtlMs⟩ := by
    rw [h1]
    show mapGet (jsTrim payloadUrl) (purgeExpiredCacheEntries now2
      (setCachedFetchResult cfg now (jsTrim payloadUrl) fr
        (purgeExpiredCacheEntries now c))) = _
    rw [hc2eq]
    unfold purgeExpiredCacheEntries
    rw [List.filter_append]
    have hkeep : List.filter (fun p : Str × CacheEntry => decide (now2 < p.2.expiresAt))
        [((jsTrim payloadUrl), (⟨fr, now + cfg.cacheTtlMs⟩ : CacheEntry))] =
        [((jsTrim payloadUrl), (⟨fr, now + cfg.cacheTtlMs⟩ : CacheEntry))] := by
      simp only [List.filter_cons, List.filter_nil]
      rw [decide_eq_true (by exact hnow2)]
      simp
    rw [hkeep, mapGet_append_absent (jsTrim payloadUrl) _
      (fun p hp => hc2abs p (List.mem_filter.mp hp).1)]
    simp [mapGet, List.find?]
  have hrep := handleFetch_hit cfg now2 payloadUrl format2 markupResps2 shotResps2
    css2 (handleFetch cfg now payloadUrl format markupResps shotResps css c).2.1
    ⟨fr, now + cfg.cacheTtlMs⟩ hhit2
  exact hrep

/-- Target address of the C2 witness. -/
def urlC2Ex : Str := str "https://pic.example"

/-- Markup oracle for the C2 witness: a 200 with a plain-text body. -/
def markupRespsPlainEx : Int → UpResp := fun _ =>
  ⟨true, 200, str "OK", str "hello world", str "", some (str "text/plain")⟩

/-- Screenshot oracle for the C2 witness: an immediate non-rate-limit 500. -/
def shotResps500Ex : Nat → UpResp := fun _ =>
  ⟨false, 500, str "ERR", str "boom", str "", none⟩

/-- Witness for C2: after a cache miss with a failed screenshot at time 0, a
second request for the same address at time 1000 — with different markup,
screenshot and stylesheet oracles — replays the cached result (warning
included, screenshot absent) without invoking any upstream client. -/
theorem C2_screenshot_failure_cached_and_replayed_witness :
    handleFetch cfgEx 1000 urlC2Ex (str "json") markupRespsHtmlEx shotResps429Ex
      cssOkEx
      (handleFetch cfgEx 0 urlC2Ex (str "json") markupRespsPlainEx shotResps500Ex
        cssFailEx []).2.1 =
      (shapeResponse (jsTrim urlC2Ex) (str "json")
        ⟨str "hello world",
         pickResponseContentType (some (str "text/plain")) (str "hello world"),
         none,
         some (screenshotWarningOf (screenshotFailMsg 500 (str "ERR") (str "boom")))⟩,
       purgeExpiredCacheEntries 1000
         (handleFetch cfgEx 0 urlC2Ex (str "json") markupRespsPlainEx shotResps500Ex
           cssFailEx []).2.1,
       false) := by
  have h := C2_screenshot_failure_cached_and_replayed cfgEx 0 1000 urlC2Ex
    (str "json") markupRespsPlainEx shotResps500Ex cssFailEx []
    ⟨str "hello world", some (str "text/plain")⟩
    (screenshotFailMsg 500 (str "ERR") (str "boom"))
    (by decide) (by decide) rfl rfl (by decide) rfl (by decide)
  exact h.2.2 (str "json") markupRespsHtmlEx shotResps429Ex cssOkEx

end WebApi
